import Mathlib

/-!
# Verification of the TUGHRA cycle-based text-transform engine

Shallow embedding of the `Tughra` JavaScript class (cipher engine, variant
catalog, and generic base-N codec) and proofs about its behavior.

Modelling conventions:
* A JavaScript string is a `List Nat` of UTF-16 code units (`Str` below);
  `charCodeAt` is list indexing and `String.fromCharCode` applies ToUint16
  (mathematical modulo 2^16, embedded as `fromCharCodeI` on `Int`).
* Methods that throw are embedded as `Except String _`; pure methods return
  `Str` directly.
* JavaScript `%` on guaranteed-nonnegative operands is `Nat.mod`; where an
  operand can be negative we use `Int.tmod` (JS `%` truncates toward zero)
  or, inside ToUint16, `Int.emod` (ToUint16 is a true modulo).
-/

set_option maxRecDepth 10000

namespace TughraJS

/-- A JavaScript string: its sequence of UTF-16 code units. -/
abbrev Str := List Nat

/-- Decidable equality for `Except`, so concrete engine runs can be settled
by `decide`. -/
instance {ε α : Type} [DecidableEq ε] [DecidableEq α] :
    DecidableEq (Except ε α) := fun a b =>
  match a, b with
  | .ok x, .ok y =>
    if h : x = y then .isTrue (by rw [h]) else .isFalse (by simp [h])
  | .error x, .error y =>
    if h : x = y then .isTrue (by rw [h]) else .isFalse (by simp [h])
  | .ok _, .error _ => .isFalse (by simp)
  | .error _, .ok _ => .isFalse (by simp)

/-- Embed a Lean string literal (BMP characters only) as a JS string:
for BMP characters the code point is the single UTF-16 code unit. -/
def jstr (s : String) : Str := s.data.map Char.toNat

/-- JS `String.fromCharCode` on one numeric argument: ToUint16, i.e. the
mathematical remainder modulo 2^16 (always nonnegative). -/
def fromCharCodeI (x : Int) : Nat := (x % 65536).toNat

/-- Models `String.fromCharCode` when the argument is already a nonnegative integer. -/
def fromCharCodeN (n : Nat) : Nat := n % 65536

/-- JS `String.fromCharCode(...codes)` over a list of nonnegative codes. -/
def fromCharCodes (l : List Nat) : Str := l.map fromCharCodeN

/-- Digit-extraction loop for `natDigits`: structural recursion on a fuel
argument so that the kernel can evaluate it (fuel `n` always suffices since
the value strictly decreases each step). -/
def natDigitsGo (b : Nat) : Nat → Nat → List Nat → List Nat
  | 0, _, acc => acc
  | fuel + 1, n, acc =>
    if b ≤ 1 then acc
    else if n = 0 then acc
    else natDigitsGo b fuel (n / b) (n % b :: acc)

/-- Digits of `n` in base `b ≥ 2` (most significant first); empty for
`n = 0`. Used to model `Number.prototype.toString(radix)`. -/
def natDigits (b n : Nat) : List Nat := natDigitsGo b n n []

/-- JS `n.toString(2)` as a list of bit values (0/1), most significant first:
`"0"` for zero, no leading zeros otherwise. -/
def natToBits (n : Nat) : List Nat :=
  if n = 0 then [0] else natDigits 2 n

/-- JS `n.toString()` (decimal) as a JS string of ASCII digit code units. -/
def natToDecStr (n : Nat) : Str :=
  if n = 0 then [48] else (natDigits 10 n).map (· + 48)

/-- JS `String.prototype.padStart(width, '0')` on a digit/bit list: prepend
zeros up to `width`; longer inputs are left untouched. -/
def padStartZeros (width : Nat) (l : List Nat) : List Nat :=
  List.replicate (width - l.length) 0 ++ l

/-- JS `parseInt(chunk, 2)` on a list of bit values: most-significant-first
binary fold. -/
def bitsToNat (bits : List Nat) : Nat :=
  bits.foldl (fun acc b => acc * 2 + b) 0

/-- Scanning helper for `indexOfUnit`. -/
def indexOfUnitGo (u : Nat) : Str → Nat → Option Nat
  | [], _ => none
  | c :: rest, i => if c = u then some i else indexOfUnitGo u rest (i + 1)

/-- First index of code unit `u` in `s` (JS `String.prototype.indexOf` for a
single-unit needle), `none` when absent (JS `-1`). -/
def indexOfUnit (s : Str) (u : Nat) : Option Nat :=
  indexOfUnitGo u s 0

/-- Is `u` a UTF-16 high (leading) surrogate? -/
def isHighSurrogate (u : Nat) : Bool := 0xD800 ≤ u && u ≤ 0xDBFF

/-- Is `u` a UTF-16 low (trailing) surrogate? -/
def isLowSurrogate (u : Nat) : Bool := 0xDC00 ≤ u && u ≤ 0xDFFF

/-- The UTF-8 bytes of one scalar code point. -/
def utf8BytesOf (cp : Nat) : List Nat :=
  if cp < 0x80 then [cp]
  else if cp < 0x800 then [0xC0 + cp / 64, 0x80 + cp % 64]
  else if cp < 0x10000 then
    [0xE0 + cp / 4096, 0x80 + cp / 64 % 64, 0x80 + cp % 64]
  else
    [0xF0 + cp / 262144, 0x80 + cp / 4096 % 64, 0x80 + cp / 64 % 64,
      0x80 + cp % 64]

/-- Models `new TextEncoder().encode(s)`: UTF-8 encoding of a UTF-16 code-unit
sequence; lone surrogates become U+FFFD (the WHATWG replacement behavior). -/
def utf8Encode : Str → List Nat
  | [] => []
  | [u] =>
    if isHighSurrogate u || isLowSurrogate u then utf8BytesOf 0xFFFD
    else utf8BytesOf u
  | u :: l :: rest =>
    if isHighSurrogate u then
      if isLowSurrogate l then
        utf8BytesOf (0x10000 + (u - 0xD800) * 1024 + (l - 0xDC00)) ++
          utf8Encode rest
      else utf8BytesOf 0xFFFD ++ utf8Encode (l :: rest)
    else if isLowSurrogate u then utf8BytesOf 0xFFFD ++ utf8Encode (l :: rest)
    else utf8BytesOf u ++ utf8Encode (l :: rest)

/-- Models `unescape(encodeURIComponent(s))`: UTF-8 conversion that throws a
`URIError` (here `none`) on a lone surrogate instead of replacing it. -/
def utf8EncodeStrict : Str → Option (List Nat)
  | [] => some []
  | [u] =>
    if isHighSurrogate u || isLowSurrogate u then none
    else some (utf8BytesOf u)
  | u :: l :: rest =>
    if isHighSurrogate u then
      if isLowSurrogate l then
        (utf8EncodeStrict rest).map
          (utf8BytesOf (0x10000 + (u - 0xD800) * 1024 + (l - 0xDC00)) ++ ·)
      else none
    else if isLowSurrogate u then none
    else (utf8EncodeStrict (l :: rest)).map (utf8BytesOf u ++ ·)

/-- Models `for..of` iteration over a JS string (as performed by `new Set(str)` and
`Array.from`): yields one string per code point, pairing a high surrogate
with an immediately following low surrogate. -/
def codePointItems : Str → List Str
  | [] => []
  | [u] => [[u]]
  | u :: l :: rest =>
    if isHighSurrogate u then
      if isLowSurrogate l then [u, l] :: codePointItems rest
      else [u] :: codePointItems (l :: rest)
    else [u] :: codePointItems (l :: rest)

/-- First-occurrence deduplication (insertion order), the iteration order of
a JS `Set`. -/
def dedupItems (seen : List Str) : List Str → List Str
  | [] => []
  | x :: rest =>
    if x ∈ seen then dedupItems seen rest
    else x :: dedupItems (x :: seen) rest

/-- Models `Array.from(new Set(encryptionKey)).map(...).join('')` from the `Tughra`
constructor: duplicate code points removed (first occurrence kept), joined
back into one string. The `isNaN(charCode)` check in the mapped function can
never fire for a string input (`charCodeAt(0)` of a nonempty string is never
`NaN`), so the map is the identity on each item. -/
def uniqueKeyOffsets (encryptionKey : Str) : Str :=
  (dedupItems [] (codePointItems encryptionKey)).flatten

/-- The `substitutionKey` object literal from the `Tughra` constructor, as
(key, value) pairs of code units, in source order. -/
def substitutionPairs : List (Nat × Nat) :=
  [(97, 113), (98, 119), (99, 101), (100, 114), (101, 116), (102, 121),
   (103, 117), (104, 105), (105, 111), (106, 112), (107, 97), (108, 115),
   (109, 100), (110, 102), (111, 103), (112, 104), (113, 106), (114, 107),
   (115, 108), (116, 122), (117, 120), (118, 99), (119, 118), (120, 98),
   (121, 110), (122, 109),
   (65, 81), (66, 87), (67, 69), (68, 82), (69, 84), (70, 89), (71, 85),
   (72, 73), (73, 79), (74, 80), (75, 65), (76, 83), (77, 68), (78, 70),
   (79, 71), (80, 72), (81, 74), (82, 75), (83, 76), (84, 90), (85, 88),
   (86, 67), (87, 86), (88, 66), (89, 78), (90, 77)]

/-- Models `this.substitutionKey[char]`: forward lookup, `undefined` = `none`. -/
def substitutionKeyLookup (c : Nat) : Option Nat :=
  (substitutionPairs.find? (fun p => p.1 == c)).map (·.2)

/-- Models `this.reverseSubstitutionKey[char]`: the constructor builds this map by
swapping every (key, value) entry of `substitutionKey`. -/
def reverseSubstitutionKeyLookup (c : Nat) : Option Nat :=
  (substitutionPairs.find? (fun p => p.2 == c)).map (·.1)

/-- The base64 symbol alphabet used by `btoa`/`atob`. -/
def base64Chars : Str :=
  jstr "ABCDEFGHIJKLMNOPQRSTUVWXYZabcdefghijklmnopqrstuvwxyz0123456789+/"

/-- Base64-encode a byte list (the effect of `btoa` on a string of units
≤ 255), including `'='` (61) padding. -/
def btoaBytes : List Nat → Str
  | [] => []
  | [a] =>
    [base64Chars.getD (a / 4) 0, base64Chars.getD (a % 4 * 16) 0, 61, 61]
  | [a, b] =>
    [base64Chars.getD (a / 4) 0, base64Chars.getD (a % 4 * 16 + b / 16) 0,
      base64Chars.getD (b % 16 * 4) 0, 61]
  | a :: b :: c :: rest =>
    [base64Chars.getD (a / 4) 0, base64Chars.getD (a % 4 * 16 + b / 16) 0,
      base64Chars.getD (b % 16 * 4 + c / 64) 0, base64Chars.getD (c % 64) 0]
      ++ btoaBytes rest

/-- JS `btoa(s)`: throws `InvalidCharacterError` when any code unit exceeds
255, otherwise base64-encodes the units as bytes. -/
def btoa (s : Str) : Except String Str :=
  if s.all (· ≤ 255) then .ok (btoaBytes s)
  else .error "InvalidCharacterError"

/-- Map one base64 symbol to its 6-bit value (`none` for non-alphabet
characters). -/
def base64Value (u : Nat) : Option Nat := indexOfUnit base64Chars u

/-- ASCII whitespace, stripped by the forgiving-base64 decoder. -/
def isAsciiWhitespace (u : Nat) : Bool :=
  u == 9 || u == 10 || u == 12 || u == 13 || u == 32

/-- Look up all 6-bit values; `none` if any symbol is invalid. -/
def base64Values : Str → Option (List Nat)
  | [] => some []
  | u :: rest => do
    let v ← base64Value u
    let vs ← base64Values rest
    pure (v :: vs)

/-- Regroup a bit list into bytes, dropping any trailing group shorter than
8 bits; structural on a fuel argument (the bit-list length suffices). -/
def bitsToBytesGo : Nat → List Nat → List Nat
  | 0, _ => []
  | fuel + 1, bits =>
    if bits.length < 8 then []
    else bitsToNat (bits.take 8) :: bitsToBytesGo fuel (bits.drop 8)

/-- Regroup a bit list into full bytes, most significant bit first, dropping
a trailing partial group. -/
def bitsToBytes (bits : List Nat) : List Nat := bitsToBytesGo bits.length bits

/-- JS `atob(s)`: the WHATWG forgiving-base64 decoder. Strips ASCII
whitespace, removes up to two `'='` padding characters when the length is a
multiple of four, rejects a remaining length ≡ 1 (mod 4) or any symbol
outside the alphabet, concatenates the 6-bit values and keeps the full
bytes. Result is a binary string (units ≤ 255). -/
def atob (s : Str) : Except String (List Nat) :=
  let data := s.filter (fun u => !isAsciiWhitespace u)
  let data :=
    if data.length % 4 == 0 then
      match data.reverse with
      | 61 :: 61 :: rev => rev.reverse
      | 61 :: rev => rev.reverse
      | _ => data
    else data
  if data.length % 4 == 1 then .error "InvalidCharacterError"
  else
    match base64Values data with
    | none => .error "InvalidCharacterError"
    | some vs => .ok (bitsToBytes (vs.map (fun v => padStartZeros 6 (natToBits v))).flatten)

/-- Models `String(uint8Array)`: a typed array coerces to the comma-separated
decimal representations of its elements (used when `_xorEncrypt` passes
`this.encryptionKey`, a `Uint8Array`, to `TextEncoder.encode`). -/
def uint8ArrayToStr (bytes : List Nat) : Str :=
  (List.intersperse [44] (bytes.map natToDecStr)).flatten

/-- One step of strict UTF-8 decoding: the scalar value and the remaining
bytes, or `none` on any malformed / overlong / surrogate / out-of-range
sequence. -/
def utf8DecodeStrictStep : List Nat → Option (Nat × List Nat)
  | [] => none
  | b :: rest =>
    if b < 0x80 then some (b, rest)
    else if 0xC2 ≤ b && b ≤ 0xDF then
      match rest with
      | c :: rest' =>
        if 0x80 ≤ c && c ≤ 0xBF then some ((b - 0xC0) * 64 + (c - 0x80), rest')
        else none
      | [] => none
    else if 0xE0 ≤ b && b ≤ 0xEF then
      match rest with
      | c1 :: c2 :: rest' =>
        let lo1 := if b == 0xE0 then 0xA0 else 0x80
        let hi1 := if b == 0xED then 0x9F else 0xBF
        if lo1 ≤ c1 && c1 ≤ hi1 && 0x80 ≤ c2 && c2 ≤ 0xBF then
          some ((b - 0xE0) * 4096 + (c1 - 0x80) * 64 + (c2 - 0x80), rest')
        else none
      | _ => none
    else if 0xF0 ≤ b && b ≤ 0xF4 then
      match rest with
      | c1 :: c2 :: c3 :: rest' =>
        let lo1 := if b == 0xF0 then 0x90 else 0x80
        let hi1 := if b == 0xF4 then 0x8F else 0xBF
        if lo1 ≤ c1 && c1 ≤ hi1 && 0x80 ≤ c2 && c2 ≤ 0xBF &&
            0x80 ≤ c3 && c3 ≤ 0xBF then
          some ((b - 0xF0) * 262144 + (c1 - 0x80) * 4096 + (c2 - 0x80) * 64 +
            (c3 - 0x80), rest')
        else none
      | _ => none
    else none

/-- The UTF-16 code units of one scalar code point. -/
def utf16UnitsOf (cp : Nat) : Str :=
  if cp < 0x10000 then [cp]
  else [0xD800 + (cp - 0x10000) / 1024, 0xDC00 + (cp - 0x10000) % 1024]

/-- Strict UTF-8 decoding loop (fuel = byte count; each step consumes at
least one byte). -/
def utf8DecodeStrictGo : Nat → List Nat → Option Str
  | _, [] => some []
  | 0, _ => none
  | fuel + 1, bytes => do
    let (cp, rest) ← utf8DecodeStrictStep bytes
    let tail ← utf8DecodeStrictGo fuel rest
    pure (utf16UnitsOf cp ++ tail)

/-- Models `decodeURIComponent(escape(bin))`: strict UTF-8 decoding of a binary
string; throws `URIError` (here `none`) on any malformed sequence. -/
def utf8DecodeStrict (bytes : List Nat) : Option Str :=
  utf8DecodeStrictGo bytes.length bytes

/-- Replacement-mode UTF-8 decoding loop (`new TextDecoder().decode`):
a malformed prefix emits U+FFFD and decoding resumes after the first byte
(a simplification of the WHATWG maximal-subpart rule that can emit more
replacement characters than a browser on some malformed inputs; it agrees
with it on well-formed input, which is the only case any theorem uses). -/
def utf8DecodeGo : Nat → List Nat → Str
  | _, [] => []
  | 0, _ => []
  | fuel + 1, b :: rest =>
    match utf8DecodeStrictStep (b :: rest) with
    | some (cp, rest') => utf16UnitsOf cp ++ utf8DecodeGo fuel rest'
    | none => 0xFFFD :: utf8DecodeGo fuel rest

/-- Models `new TextDecoder().decode(bytes)`: UTF-8 with U+FFFD replacement. -/
def utf8Decode (bytes : List Nat) : Str := utf8DecodeGo bytes.length bytes

/-- The state of a constructed `Tughra` instance: the fields set by the
constructor (the substitution tables are the fixed global maps above). -/
structure Config where
  keyOffsets : Str
  mode : Str
  useBaseEncoding : Bool
  baseCharset : Str
  encryptionKey : List Nat
  algorithm : Str
  a : Nat
  b : Nat
  m : Nat
deriving DecidableEq

/-- The default `baseCharset` (Base64 alphabet plus `'='`). -/
def defaultCharset : Str :=
  jstr "ABCDEFGHIJKLMNOPQRSTUVWXYZabcdefghijklmnopqrstuvwxyz0123456789+/="

/-- Models `new Tughra(mode, baseCharset, algorithm, encryptionKey, useBaseEncoding)`:
the constructor. Throws (= `.error`) when the algorithm is `'default'` and
the deduplicated key is empty, or when the algorithm is not `'default'` and
the key string is shorter than 8 code units (`checkKeyStrength`). Falsy
(empty) `mode`/`baseCharset`/`algorithm` fall back to their defaults via
`||`. `a`, `b`, `m` (the Affine keys) are hardcoded to 5, 8, 26. -/
def tughraNew (mode baseCharset algorithm encryptionKey : Str)
    (useBaseEncoding : Bool) : Except String Config :=
  let uniq := uniqueKeyOffsets encryptionKey
  if algorithm == jstr "default" && uniq.isEmpty then
    .error "keyOffsets must contain at least one valid value."
  else if algorithm != jstr "default" && decide (encryptionKey.length < 8) then
    .error "Key must be at least 8 characters long."
  else
    .ok
      { keyOffsets := uniq
        mode := if mode.isEmpty then jstr "encrypt" else mode
        useBaseEncoding := useBaseEncoding
        baseCharset := if baseCharset.isEmpty then defaultCharset else baseCharset
        encryptionKey := utf8Encode encryptionKey
        algorithm := if algorithm.isEmpty then jstr "default" else algorithm
        a := 5, b := 8, m := 26 }

/-- Models `_modInverse` scan: `for (let x = 1; x < m; x++)`, returning the first
`x` with `(a * x) % m === 1`; fuel-structural (fuel `m` covers the range). -/
def modInverseGo (a m : Nat) : Nat → Nat → Option Nat
  | 0, _ => none
  | fuel + 1, x =>
    if x < m then
      if (a * x) % m == 1 then some x else modInverseGo a m fuel (x + 1)
    else none

/-- Models `this._modInverse(a, m)`: the modular inverse of `a` mod `m` by linear
search, `null` (= `none`) when none exists. -/
def modInverse (a m : Nat) : Option Nat := modInverseGo a m m 1

/-- Is `c` an ASCII letter (`/[A-Za-z]/`)? -/
def isAsciiLetter (c : Nat) : Bool :=
  (65 ≤ c && c ≤ 90) || (97 ≤ c && c ≤ 122)

/-- Models `char === char.toUpperCase() ? 65 : 97` under a `/[A-Za-z]/` guard: for
ASCII letters this is `c ≤ 90 ? 65 : 97` (also the value of the
`char <= 'Z'` comparison used by the ROT variants). -/
def letterBase (c : Nat) : Nat := if c ≤ 90 then 65 else 97

end TughraJS

namespace TughraJS

/-- Models `_encryptAffine`: `y = (a·x + b) mod 26` on ASCII letters, others pass
through. -/
def encryptAffine (cfg : Config) (text : Str) : Str :=
  text.map fun c =>
    if isAsciiLetter c then
      (cfg.a * (c - letterBase c) + cfg.b) % 26 + letterBase c
    else c

/-- Models `_decryptAffine`: `x = a⁻¹·(y - b + 26) mod 26`. The method does not
check `_modInverse` for `null`; in JS a `null` inverse coerces to `0` in
the arithmetic, so we take `.getD 0`. The JS operand
`c - base - this.b + 26` can dip below zero mid-expression; we reorder it to
`c - base + 26 - b` (equal in ℤ, and nonnegative throughout in ℕ since
`b = 8 ≤ 26`), after which JS `%` is `Nat.mod`. -/
def decryptAffine (cfg : Config) (text : Str) : Str :=
  let aInv := (modInverse cfg.a 26).getD 0
  text.map fun c =>
    if isAsciiLetter c then
      ((aInv * (c - letterBase c + 26 - cfg.b)) % 26 + 26) % 26 + letterBase c
    else c

/-- Models `_encryptAffinePro`: same map as `_encryptAffine` but with the modulus
field `this.m`. -/
def encryptAffinePro (cfg : Config) (text : Str) : Str :=
  text.map fun c =>
    if isAsciiLetter c then
      (cfg.a * (c - letterBase c) + cfg.b) % cfg.m + letterBase c
    else c

/-- Models `_decryptAffinePro`: computes the inverse first and throws
`"No modular inverse exists for the given key 'a'"` when `_modInverse`
returns `null` — the only inverse-existence check in the class, performed at
decrypt time. `y - b + m = (c - base) + 18` for the hardcoded `b = 8`,
`m = 26`. The JS operand `y - this.b + this.m` can dip below zero
mid-expression; we reorder it to `y + m - b` (equal in ℤ, nonnegative in ℕ
for the hardcoded `b = 8 ≤ m = 26`). -/
def decryptAffinePro (cfg : Config) (text : Str) : Except String Str :=
  match modInverse cfg.a cfg.m with
  | none => .error "No modular inverse exists for the given key 'a'"
  | some aInv =>
    .ok <| text.map fun c =>
      if isAsciiLetter c then
        (aInv * (c - letterBase c + cfg.m - cfg.b)) % cfg.m + letterBase c
      else c

/-- Models `_encryptSubstitution` / `_encryptSubstitutionPro`:
`this.substitutionKey[char] || char`. -/
def encryptSubstitution (text : Str) : Str :=
  text.map fun c => (substitutionKeyLookup c).getD c

/-- Models `_decryptSubstitution` / `_decryptSubstitutionPro`:
`this.reverseSubstitutionKey[char] || char`. -/
def decryptSubstitution (text : Str) : Str :=
  text.map fun c => (reverseSubstitutionKeyLookup c).getD c

/-- Shift an ASCII letter by `k` within its case alphabet (the body of the
ROT-family `replace(/[A-Za-z]/g, …)` callbacks); non-letters pass through. -/
def rotUnit (k : Nat) (c : Nat) : Nat :=
  if isAsciiLetter c then (c - letterBase c + k) % 26 + letterBase c else c

/-- Models `_encryptROT13`: shift by 13. -/
def encryptROT13 (text : Str) : Str := text.map (rotUnit 13)

/-- Models `_decryptROT13`: `return this._encryptROT13(text)` (ROT13 is
symmetric). -/
def decryptROT13 (text : Str) : Str := encryptROT13 text

/-- Models `_encryptROT18`: shift by 18. -/
def encryptROT18 (text : Str) : Str := text.map (rotUnit 18)

/-- Models `_decryptROT18`: shift by `26 - 18 = 8`. -/
def decryptROT18 (text : Str) : Str := text.map (rotUnit (26 - 18))

/-- Models `_encryptROT25`: shift by 25. -/
def encryptROT25 (text : Str) : Str := text.map (rotUnit 25)

/-- Models `_decryptROT25`: shift by `26 - 25 = 1`. -/
def decryptROT25 (text : Str) : Str := text.map (rotUnit (26 - 25))

/-- Models `_encryptROT30`: shift by 4 (the comment in the source calls this
"ROT30"; 30 mod 26 = 4). -/
def encryptROT30 (text : Str) : Str := text.map (rotUnit 4)

/-- Models `_decryptROT30`: `((c - base + 22) % 26 + 26) % 26 + base`; the operand
is nonnegative, so the defensive `+ 26) % 26` is kept literally in ℕ. -/
def decryptROT30 (text : Str) : Str :=
  text.map fun c =>
    if isAsciiLetter c then
      ((c - letterBase c + 22) % 26 + 26) % 26 + letterBase c
    else c

/-- Models `_encryptROT47`: `replace(/[!-~]/g, c => fromCharCode(33 + ((code + 14) % 94)))`. -/
def encryptROT47 (text : Str) : Str :=
  text.map fun c =>
    if 33 ≤ c && c ≤ 126 then 33 + (c + 14) % 94 else c

/-- Models `_decryptROT47`: the source reads `return this.encryptROT47(text)`, but
the class defines only `_encryptROT47`; `this.encryptROT47` is `undefined`,
so every call throws a `TypeError`. -/
def decryptROT47 (_text : Str) : Except String Str :=
  .error "TypeError: this.encryptROT47 is not a function"

/-- Models `_encryptAtbash`: `base + (25 - (c - base))` on ASCII letters. -/
def encryptAtbash (text : Str) : Str :=
  text.map fun c =>
    if isAsciiLetter c then letterBase c + (25 - (c - letterBase c)) else c

/-- Models `_decryptAtbash`: the source reads `return this.encryptAtbash(text)`,
but the class defines only `_encryptAtbash`; `this.encryptAtbash` is
`undefined`, so every call throws a `TypeError`. -/
def decryptAtbash (_text : Str) : Except String Str :=
  .error "TypeError: this.encryptAtbash is not a function"

/-- Models `this.keyOffsets.charCodeAt(i % this.keyOffsets.length)`: `none` models
the `NaN` produced when `keyOffsets` is empty (`i % 0` is `NaN` and
`''.charCodeAt` is `NaN`). -/
def keyOffsetAt (key : Str) (i : Nat) : Option Nat :=
  if key.isEmpty then none else some (key.getD (i % key.length) 0)

/-- Models `_TughraEncrypt` loop: `fromCharCode(charCode + offset)` per position.
A `NaN` offset (empty key) makes `fromCharCode(NaN)` yield unit 0. -/
def tughraEncryptGo (key : Str) : Nat → Str → Str
  | _, [] => []
  | i, c :: rest =>
    (match keyOffsetAt key i with
      | some off => fromCharCodeI ((c : Int) + (off : Int))
      | none => 0) :: tughraEncryptGo key (i + 1) rest

/-- Models `_TughraEncrypt`. -/
def tughraEncrypt (cfg : Config) (text : Str) : Str :=
  tughraEncryptGo cfg.keyOffsets 0 text

/-- Models `_TughraDecrypt` loop: `fromCharCode(charCode - offset)`; the
subtraction is on JS numbers, so it is `Int` subtraction followed by
ToUint16. -/
def tughraDecryptGo (key : Str) : Nat → Str → Str
  | _, [] => []
  | i, c :: rest =>
    (match keyOffsetAt key i with
      | some off => fromCharCodeI ((c : Int) - (off : Int))
      | none => 0) :: tughraDecryptGo key (i + 1) rest

/-- Models `_TughraDecrypt`. -/
def tughraDecrypt (cfg : Config) (text : Str) : Str :=
  tughraDecryptGo cfg.keyOffsets 0 text

/-- Models `_caesarEncrypt`: `fromCharCode(c + this.encryptionKey.length)` (the
UTF-8 byte count of the key). -/
def caesarEncrypt (cfg : Config) (text : Str) : Str :=
  text.map fun c => fromCharCodeI ((c : Int) + cfg.encryptionKey.length)

/-- Models `_caesarDecrypt`: `fromCharCode(c - this.encryptionKey.length)`. -/
def caesarDecrypt (cfg : Config) (text : Str) : Str :=
  text.map fun c => fromCharCodeI ((c : Int) - cfg.encryptionKey.length)

/-- Models `_encryptAsciiShift` (identical body to `_caesarEncrypt`). -/
def encryptAsciiShift (cfg : Config) (text : Str) : Str :=
  text.map fun c => fromCharCodeI ((c : Int) + cfg.encryptionKey.length)

/-- Models `_decryptAsciiShift`. -/
def decryptAsciiShift (cfg : Config) (text : Str) : Str :=
  text.map fun c => fromCharCodeI ((c : Int) - cfg.encryptionKey.length)

/-- Models `_encryptUnicodeShift` (identical body to `_caesarEncrypt`). -/
def encryptUnicodeShift (cfg : Config) (text : Str) : Str :=
  text.map fun c => fromCharCodeI ((c : Int) + cfg.encryptionKey.length)

/-- Models `_decryptUnicodeShift`. -/
def decryptUnicodeShift (cfg : Config) (text : Str) : Str :=
  text.map fun c => fromCharCodeI ((c : Int) - cfg.encryptionKey.length)

/-- Models `_encryptNumeric`: decimal char codes joined by `'-'` (45). -/
def encryptNumeric (text : Str) : Str :=
  (List.intersperse [45] (text.map natToDecStr)).flatten

/-- Models `parseInt(s)` restricted to the pieces produced by splitting on `'-'`
(no sign can appear): skip whitespace, optional `0x`/`0X` prefix selects
base 16, otherwise decimal; `none` is `NaN` (no digits). -/
def parseIntPiece (s : Str) : Option Nat :=
  let s := s.dropWhile (fun u => isAsciiWhitespace u || u == 11 || u == 160)
  let digitsOf : Nat → Str → Option Nat := fun base l =>
    let val : Nat → Option Nat := fun u =>
      if 48 ≤ u && u ≤ 57 then some (u - 48)
      else if base == 16 && 97 ≤ u && u ≤ 102 then some (u - 87)
      else if base == 16 && 65 ≤ u && u ≤ 70 then some (u - 55)
      else none
    let pre := l.takeWhile (fun u => (val u).isSome)
    if pre.isEmpty then none
    else some (pre.foldl (fun acc u => acc * base + (val u).getD 0) 0)
  match s with
  | 48 :: x :: rest =>
    if x == 120 || x == 88 then digitsOf 16 rest else digitsOf 10 s
  | _ => digitsOf 10 s

/-- Models `_decryptNumeric`: split on `'-'`, `fromCharCode(parseInt(piece))`;
`fromCharCode(NaN)` is unit 0. -/
def decryptNumeric (numbers : Str) : Str :=
  (numbers.splitOn 45).map fun piece =>
    match parseIntPiece piece with
    | some n => fromCharCodeN n
    | none => 0

/-- Models `_encryptReversedCaesar`: `((25 - (c - base) + keyLen) % 26) + base` on
ASCII letters (operand nonnegative, so ℕ arithmetic; `25 - (c - base)` is
within `[0, 25]`). -/
def encryptReversedCaesar (cfg : Config) (text : Str) : Str :=
  text.map fun c =>
    if isAsciiLetter c then
      (25 - (c - letterBase c) + cfg.encryptionKey.length) % 26 + letterBase c
    else c

/-- Models `_decryptReversedCaesar`: `((25 - (c - base) - keyLen + 26) % 26) + base`.
The operand goes negative when the key is longer than 51 bytes and JS `%`
truncates toward zero, so this is `Int.tmod`, then ToUint16 via
`fromCharCode`. -/
def decryptReversedCaesar (cfg : Config) (text : Str) : Str :=
  text.map fun c =>
    if isAsciiLetter c then
      fromCharCodeI
        ((25 - ((c : Int) - letterBase c) - cfg.encryptionKey.length + 26).tmod 26
          + letterBase c)
    else c

/-- Models `_encryptXORPro`: `c ^ key.charCodeAt(i % key.length)` over `keyOffsets`;
an empty key gives `c ^ NaN = c ^ 0 = c` (ToInt32(NaN) = 0). -/
def encryptXORProGo (key : Str) : Nat → Str → Str
  | _, [] => []
  | i, c :: rest =>
    (match keyOffsetAt key i with
      | some off => fromCharCodeN (c ^^^ off)
      | none => fromCharCodeN (c ^^^ 0)) :: encryptXORProGo key (i + 1) rest

/-- Models `_encryptXORPro(text, this.keyOffsets)`. -/
def encryptXORPro (cfg : Config) (text : Str) : Str :=
  encryptXORProGo cfg.keyOffsets 0 text

/-- Models `_decryptXORPro`: `return this._encryptXORPro(text, key)`. -/
def decryptXORPro (cfg : Config) (text : Str) : Str :=
  encryptXORPro cfg text

/-- Models `keyBytes[i % keyBytes.length]` for byte arrays: `undefined` (= `none`)
when empty; an `undefined` operand of `^`/`+` behaves as `NaN`. -/
def keyByteAt (key : List Nat) (i : Nat) : Option Nat :=
  if key.isEmpty then none else some (key.getD (i % key.length) 0)

/-- The XOR loop of `_xorEncrypt`/`_xorDecrypt`: `byte ^ keyBytes[i % len]`;
with an empty key, `byte ^ undefined = byte ^ 0 = byte`. -/
def xorBytesGo (key : List Nat) : Nat → List Nat → List Nat
  | _, [] => []
  | i, b :: rest =>
    (match keyByteAt key i with
      | some k => b ^^^ k
      | none => b ^^^ 0) :: xorBytesGo key (i + 1) rest

/-- Models `_xorEncrypt`: the guard `if (!this.encryptionKey) throw …` never fires
(a `Uint8Array` is always truthy). `keyBytes` is
`TextEncoder.encode(this.encryptionKey)` where `this.encryptionKey` is a
`Uint8Array`, which is first coerced to its comma-separated decimal string.
Result: `btoa(String.fromCharCode(...encryptedBytes))`. -/
def xorEncrypt (cfg : Config) (text : Str) : Except String Str :=
  let textBytes := utf8Encode text
  let keyBytes := utf8Encode (uint8ArrayToStr cfg.encryptionKey)
  btoa (fromCharCodes (xorBytesGo keyBytes 0 textBytes))

/-- Models `_xorDecrypt`: `atob` (its `InvalidCharacterError` propagates), XOR with
the same coerced key bytes, then `TextDecoder.decode`. -/
def xorDecrypt (cfg : Config) (text : Str) : Except String Str := do
  let encryptedBytes ← atob text
  let keyBytes := utf8Encode (uint8ArrayToStr cfg.encryptionKey)
  pure (utf8Decode (xorBytesGo keyBytes 0 encryptedBytes))

/-- The byte loop of `_vigenereEncrypt`:
`(byte + key[i % key.length]) % 256`, stored back into a `Uint8Array`; an
empty key gives `(byte + undefined) % 256 = NaN`, stored as 0. -/
def vigenereEncBytes (key : List Nat) : Nat → List Nat → List Nat
  | _, [] => []
  | i, b :: rest =>
    (match keyByteAt key i with
      | some k => (b + k) % 256
      | none => 0) :: vigenereEncBytes key (i + 1) rest

/-- Models `_vigenereEncrypt`: UTF-8 bytes, add key bytes mod 256, then
`_arrayBufferToBase64` (chunked `fromCharCode` + `btoa`, equal to base64 of
the bytes since every value is ≤ 255). -/
def vigenereEncrypt (cfg : Config) (text : Str) : Str :=
  btoaBytes (vigenereEncBytes cfg.encryptionKey 0 (utf8Encode text))

/-- The byte loop of `_vigenereDecrypt`:
`(byte - key[i % key.length] + 256) % 256` (nonnegative in ℕ); empty key
gives `NaN`, stored as 0. -/
def vigenereDecBytes (key : List Nat) : Nat → List Nat → List Nat
  | _, [] => []
  | i, b :: rest =>
    (match keyByteAt key i with
      | some k => (b + 256 - k) % 256
      | none => 0) :: vigenereDecBytes key (i + 1) rest

/-- Models `_vigenereDecrypt`: `_base64ToArrayBuffer` (an `atob` error propagates),
subtract key bytes mod 256, `TextDecoder.decode`. -/
def vigenereDecrypt (cfg : Config) (text : Str) : Except String Str := do
  let encryptedBytes ← atob text
  pure (utf8Decode (vigenereDecBytes cfg.encryptionKey 0 encryptedBytes))

/-- Models `_encryptBase64`: `btoa(text)` (throws on units above 255). -/
def encryptBase64 (text : Str) : Except String Str := btoa text

/-- Models `_decryptBase64`: `atob(base64)`; the result is the binary string whose
units are the decoded bytes. -/
def decryptBase64 (text : Str) : Except String Str := atob text

/-- Models `Math.ceil(Math.log(base))` — the **natural**-logarithm chunk sizing of
`baseEncodeDecode`, tabulated by the integer thresholds `e^k` (valid for
every `base ≤ 22026`, far beyond any realistic alphabet). `Math.log(0)` is
`-Infinity` and `Math.log(1)` is `0`; both map to 0 here. -/
def chunkSizeOf (base : Nat) : Nat :=
  if base ≤ 1 then 0
  else if base ≤ 2 then 1
  else if base ≤ 7 then 2
  else if base ≤ 20 then 3
  else if base ≤ 54 then 4
  else if base ≤ 148 then 5
  else if base ≤ 403 then 6
  else if base ≤ 1096 then 7
  else if base ≤ 2980 then 8
  else if base ≤ 8103 then 9
  else 10

/-- The code units of the string `"undefined"`: appending an out-of-range
`alphabet[index]` (which is `undefined`) to a JS string appends these nine
characters. -/
def undefinedStr : Str := jstr "undefined"

/-- Models `encode`'s chunk loop: take `chunkSize` bits, right-pad the last chunk
with zeros (`padEnd`), use the chunk's value to index the alphabet. Fuel is
the bit-list length; a `chunkSize` of 0 (alphabet of size ≤ 1) would loop
forever in JS and exhausts the fuel here. -/
def baseEncodeGo (alphabet : Str) (chunkSize : Nat) : Nat → List Nat → Str
  | 0, _ => []
  | fuel + 1, bits =>
    if bits.isEmpty then []
    else
      let chunk := bits.take chunkSize ++
        List.replicate (chunkSize - (bits.take chunkSize).length) 0
      let index := bitsToNat chunk
      (match alphabet.get? index with
        | some c => [c]
        | none => undefinedStr) ++
        baseEncodeGo alphabet chunkSize fuel (bits.drop chunkSize)

/-- Models `baseEncodeDecode(alphabet).encode`: 8-bit binary expansion of every
code unit (`toString(2).padStart(8, '0')` — units above 255 contribute more
than 8 bits, unpadded), then chunked indexing into the alphabet. -/
def baseEncode (alphabet : Str) (text : Str) : Str :=
  let binary := (text.map (fun c => padStartZeros 8 (natToBits c))).flatten
  baseEncodeGo alphabet (chunkSizeOf alphabet.length) binary.length binary

/-- Models `decode`'s symbol loop: each symbol's alphabet index, left-padded to
`chunkSize` bits; a missing symbol throws `'Invalid Base character'`. -/
def baseDecodeBits (alphabet : Str) (chunkSize : Nat) :
    Str → Except String (List Nat)
  | [] => .ok []
  | u :: rest =>
    match indexOfUnit alphabet u with
    | none => .error "Invalid Base character"
    | some index => do
      let tail ← baseDecodeBits alphabet chunkSize rest
      pure (padStartZeros chunkSize (natToBits index) ++ tail)

/-- Models `baseEncodeDecode(alphabet).decode`: indices back to bits, then every
full 8-bit group becomes one code unit (a trailing short group is
discarded). -/
def baseDecode (alphabet : Str) (text : Str) : Except String Str := do
  let binary ← baseDecodeBits alphabet (chunkSizeOf alphabet.length) text
  pure (bitsToBytes binary)

/-- Models `toBase`: empty text returns itself; otherwise
`baseLibrary.encode(unescape(encodeURIComponent(text)))` inside a
`try/catch` that returns the input on error. The only throwing step is
`encodeURIComponent` on a lone surrogate. -/
def toBase (cfg : Config) (text : Str) : Str :=
  if text.isEmpty then text
  else
    match utf8EncodeStrict text with
    | none => text
    | some bytes => baseEncode cfg.baseCharset bytes

/-- Models `fromBase`: empty text returns itself; otherwise
`decodeURIComponent(escape(baseLibrary.decode(text)))` inside a `try/catch`
that returns the input on error — an `'Invalid Base character'` throw from
`decode`, or a `URIError` from `decodeURIComponent` on bytes that are not
valid UTF-8, is swallowed and the untouched input text is returned. -/
def fromBase (cfg : Config) (text : Str) : Str :=
  if text.isEmpty then text
  else
    match baseDecode cfg.baseCharset text with
    | .error _ => text
    | .ok bytes =>
      match utf8DecodeStrict bytes with
      | none => text
      | some s => s

/-- Models `_processCycle`: the `switch (this.algorithm)` dispatch; every case
chooses encrypt/decrypt by `mode === 'encrypt'`, and the `default` case is
the Tughra transform (any unrecognized algorithm lands there). -/
def processCycle (cfg : Config) (text : Str) (mode : Str) :
    Except String Str :=
  if cfg.algorithm == jstr "caesar" then
    .ok (if mode == jstr "encrypt" then caesarEncrypt cfg text
      else caesarDecrypt cfg text)
  else if cfg.algorithm == jstr "vigenere" then
    if mode == jstr "encrypt" then .ok (vigenereEncrypt cfg text)
    else vigenereDecrypt cfg text
  else if cfg.algorithm == jstr "xor" then
    if mode == jstr "encrypt" then xorEncrypt cfg text
    else xorDecrypt cfg text
  else if cfg.algorithm == jstr "ROT47" then
    if mode == jstr "encrypt" then .ok (encryptROT47 text)
    else decryptROT47 text
  else if cfg.algorithm == jstr "Atbash" then
    if mode == jstr "encrypt" then .ok (encryptAtbash text)
    else decryptAtbash text
  else if cfg.algorithm == jstr "Substitution" then
    .ok (if mode == jstr "encrypt" then encryptSubstitution text
      else decryptSubstitution text)
  else if cfg.algorithm == jstr "Base64" then
    if mode == jstr "encrypt" then encryptBase64 text
    else decryptBase64 text
  else if cfg.algorithm == jstr "ASCII" then
    .ok (if mode == jstr "encrypt" then encryptAsciiShift cfg text
      else decryptAsciiShift cfg text)
  else if cfg.algorithm == jstr "Affine" then
    .ok (if mode == jstr "encrypt" then encryptAffine cfg text
      else decryptAffine cfg text)
  else if cfg.algorithm == jstr "Unicode Shift" then
    .ok (if mode == jstr "encrypt" then encryptUnicodeShift cfg text
      else decryptUnicodeShift cfg text)
  else if cfg.algorithm == jstr "Numeric" then
    .ok (if mode == jstr "encrypt" then encryptNumeric text
      else decryptNumeric text)
  else if cfg.algorithm == jstr "Reversed Caesar" then
    .ok (if mode == jstr "encrypt" then encryptReversedCaesar cfg text
      else decryptReversedCaesar cfg text)
  else if cfg.algorithm == jstr "ROT13" then
    .ok (if mode == jstr "encrypt" then encryptROT13 text
      else decryptROT13 text)
  else if cfg.algorithm == jstr "ROT18" then
    .ok (if mode == jstr "encrypt" then encryptROT18 text
      else decryptROT18 text)
  else if cfg.algorithm == jstr "ROT25" then
    .ok (if mode == jstr "encrypt" then encryptROT25 text
      else decryptROT25 text)
  else if cfg.algorithm == jstr "ROT30" then
    .ok (if mode == jstr "encrypt" then encryptROT30 text
      else decryptROT30 text)
  else if cfg.algorithm == jstr "XOR Pro" then
    .ok (if mode == jstr "encrypt" then encryptXORPro cfg text
      else decryptXORPro cfg text)
  else if cfg.algorithm == jstr "Affine Pro" then
    if mode == jstr "encrypt" then .ok (encryptAffinePro cfg text)
    else decryptAffinePro cfg text
  else if cfg.algorithm == jstr "Substitution Pro" then
    .ok (if mode == jstr "encrypt" then encryptSubstitution text
      else decryptSubstitution text)
  else
    .ok (if mode == jstr "encrypt" then tughraEncrypt cfg text
      else tughraDecrypt cfg text)

/-- The `for (let i = 0; i < cycles; i++)` loop of `process`: feed each
cycle's output into the next; an exception aborts the loop. -/
def processCycles (cfg : Config) (mode : Str) : Str → Nat → Except String Str
  | t, 0 => .ok t
  | t, n + 1 => do
    let t' ← processCycle cfg t mode
    processCycles cfg mode t' n

/-- Models `process(text, cycles)`: optional `fromBase` before decrypting, cycles
forced to 1 for `'xor'`, `'ROT47'` and `'ROT13'`, the cycle loop, and an
optional `toBase` after encrypting. -/
def process (cfg : Config) (text : Str) (cycles : Nat) : Except String Str :=
  let text :=
    if cfg.useBaseEncoding && cfg.mode == jstr "decrypt" then fromBase cfg text
    else text
  let cycles :=
    if cfg.algorithm == jstr "xor" || cfg.algorithm == jstr "ROT47" ||
        cfg.algorithm == jstr "ROT13" then 1
    else cycles
  match processCycles cfg cfg.mode text cycles with
  | .error e => .error e
  | .ok r =>
    .ok (if cfg.useBaseEncoding && cfg.mode == jstr "encrypt" then toBase cfg r
      else r)

/-- Pure iteration of a per-cycle transform (the denotation of the cycle
loop for variants that never throw). -/
def iterateCycles (f : Str → Str) : Nat → Str → Str
  | 0, t => t
  | n + 1, t => iterateCycles f n (f t)

/-- A config as the constructor produces it for `new Tughra('encrypt',
undefined-ish, 'Affine Pro', 'password1')`; used to examine the Affine-Pro
inverse check concretely. -/
def affineProCfg : Config :=
  { keyOffsets := uniqueKeyOffsets (jstr "password1")
    mode := jstr "encrypt"
    useBaseEncoding := false
    baseCharset := defaultCharset
    encryptionKey := utf8Encode (jstr "password1")
    algorithm := jstr "Affine Pro"
    a := 5, b := 8, m := 26 }

/-- The state `affineProCfg` with the multiplicative key forced to the non-coprime
value 4 (the state the spec's `a=4, m=26` scenario describes; the
constructor itself offers no way to set `a`). -/
def affineProCfgA4 : Config := { affineProCfg with a := 4 }

/-- A ROT13-variant config (key `"password"`), as the constructor builds
it. -/
def rot13Cfg : Config :=
  { keyOffsets := uniqueKeyOffsets (jstr "password")
    mode := jstr "encrypt"
    useBaseEncoding := false
    baseCharset := defaultCharset
    encryptionKey := utf8Encode (jstr "password")
    algorithm := jstr "ROT13"
    a := 5, b := 8, m := 26 }

/-- A decrypt-mode config with the two-symbol alphabet `"01"` and base
encoding enabled (the `InvalidSymbolError` swallow scenario). -/
def base01Cfg : Config :=
  { keyOffsets := uniqueKeyOffsets (jstr "password")
    mode := jstr "decrypt"
    useBaseEncoding := true
    baseCharset := jstr "01"
    encryptionKey := utf8Encode (jstr "password")
    algorithm := jstr "ROT13"
    a := 5, b := 8, m := 26 }

/-- A default-variant config with the one-character key `"k"`. -/
def tughraKCfg : Config :=
  { keyOffsets := uniqueKeyOffsets (jstr "k")
    mode := jstr "encrypt"
    useBaseEncoding := false
    baseCharset := defaultCharset
    encryptionKey := utf8Encode (jstr "k")
    algorithm := jstr "default"
    a := 5, b := 8, m := 26 }

end TughraJS

namespace TughraJS

/-! ## Helper lemmas -/

/-- ToUint16 of a sum of nonnegative numbers is the ℕ remainder. -/
theorem fromCharCodeI_add (c o : Nat) :
    fromCharCodeI ((c : Int) + (o : Int)) = (c + o) % 65536 := by
  unfold fromCharCodeI
  omega

/-- Encrypt-then-decrypt on one unit: `((c + o) mod 2^16 - o) mod 2^16 = c`
for `c < 2^16`. -/
theorem tughra_unit_roundtrip (c o : Nat) (hc : c < 65536) :
    fromCharCodeI ((fromCharCodeI ((c : Int) + (o : Int)) : Int) - (o : Int)) = c := by
  unfold fromCharCodeI
  omega

/-- The per-unit ROT-family shift by 13 is an involution. -/
theorem rotUnit_13_invol (c : Nat) : rotUnit 13 (rotUnit 13 c) = c := by
  unfold rotUnit isAsciiLetter letterBase
  split_ifs <;> simp_all <;> omega

/-- The per-unit ROT47 step is an involution. -/
theorem rot47_unit_invol (c : Nat) :
    (fun c => if 33 ≤ c && c ≤ 126 then 33 + (c + 14) % 94 else c)
      ((fun c => if 33 ≤ c && c ≤ 126 then 33 + (c + 14) % 94 else c) c) = c := by
  simp only [Bool.and_eq_true, decide_eq_true_eq]
  split_ifs <;> simp_all <;> omega

/-- The per-unit Atbash step is an involution. -/
theorem atbash_unit_invol (c : Nat) :
    (fun c => if isAsciiLetter c then letterBase c + (25 - (c - letterBase c)) else c)
      ((fun c => if isAsciiLetter c then letterBase c + (25 - (c - letterBase c)) else c) c)
      = c := by
  unfold isAsciiLetter letterBase
  simp only [Bool.or_eq_true, Bool.and_eq_true, decide_eq_true_eq]
  split_ifs <;> omega

/-- ROT13 (as a whole-text map) is an involution. -/
theorem encryptROT13_invol (t : Str) :
    encryptROT13 (encryptROT13 t) = t := by
  unfold encryptROT13
  rw [List.map_map]
  have : ∀ c, (rotUnit 13 ∘ rotUnit 13) c = c := fun c => rotUnit_13_invol c
  induction t with
  | nil => rfl
  | cons c rest ih =>
    simp only [List.map_cons, Function.comp_apply, rotUnit_13_invol, List.cons.injEq,
      true_and]
    simpa [List.map_map] using ih

/-- ROT47 encryption (as a whole-text map) is an involution. -/
theorem encryptROT47_invol (t : Str) :
    encryptROT47 (encryptROT47 t) = t := by
  unfold encryptROT47
  induction t with
  | nil => rfl
  | cons c rest ih =>
    simp only [List.map_cons, List.cons.injEq]
    exact ⟨rot47_unit_invol c, ih⟩

/-- Atbash encryption (as a whole-text map) is an involution. -/
theorem encryptAtbash_invol (t : Str) :
    encryptAtbash (encryptAtbash t) = t := by
  unfold encryptAtbash
  induction t with
  | nil => rfl
  | cons c rest ih =>
    simp only [List.map_cons, List.cons.injEq]
    exact ⟨atbash_unit_invol c, ih⟩

/-- With a nonempty key, the Tughra decrypt loop inverts the encrypt loop
from any starting index, provided the input units are valid UTF-16 code
units (< 2^16). -/
theorem tughraGo_roundtrip (key : Str) (hk : key.isEmpty = false) :
    ∀ (t : Str) (i : Nat), (∀ u ∈ t, u < 65536) →
      tughraDecryptGo key i (tughraEncryptGo key i t) = t := by
  have hko : ∀ j, keyOffsetAt key j = some (key.getD (j % key.length) 0) := by
    intro j; unfold keyOffsetAt; simp [hk]
  intro t
  induction t with
  | nil => intro i _; rfl
  | cons c rest ih =>
    intro i hu
    simp only [tughraEncryptGo, tughraDecryptGo, hko]
    rw [tughra_unit_roundtrip c _ (hu c (List.mem_cons_self c rest))]
    exact congrArg (c :: ·)
      (ih (i + 1) (fun u hmem => hu u (List.mem_cons_of_mem c hmem)))

/-- Every unit the Tughra encrypt loop emits is a valid UTF-16 unit. -/
theorem tughraEncryptGo_units (key : Str) :
    ∀ (t : Str) (i : Nat), ∀ u ∈ tughraEncryptGo key i t, u < 65536 := by
  intro t
  induction t with
  | nil => intro i u hmem; cases hmem
  | cons c rest ih =>
    intro i u hmem
    unfold tughraEncryptGo at hmem
    rcases List.mem_cons.mp hmem with h | h
    · subst h
      cases hko : keyOffsetAt key i with
      | none => simp [hko]
      | some off =>
        simp only [hko]
        show fromCharCodeI ((c : Int) + (off : Int)) < 65536
        unfold fromCharCodeI
        omega
    · exact ih (i + 1) u h

/-- The element at position `j` of the Tughra encrypt loop's output is
`(text[j] + key[(i + j) % key.length]) % 2^16`. -/
theorem tughraEncryptGo_get? (key : Str) (hk : key.isEmpty = false) :
    ∀ (t : Str) (i j : Nat), j < t.length →
      (tughraEncryptGo key i t).get? j =
        some ((t.getD j 0 + key.getD ((i + j) % key.length) 0) % 65536) := by
  have hko : ∀ j, keyOffsetAt key j = some (key.getD (j % key.length) 0) := by
    intro j; unfold keyOffsetAt; simp [hk]
  intro t
  induction t with
  | nil => intro i j h; cases h
  | cons c rest ih =>
    intro i j hj
    cases j with
    | zero =>
      simp only [tughraEncryptGo, hko, List.get?_cons_zero, List.getD_cons_zero,
        Nat.add_zero, fromCharCodeI_add]
    | succ j' =>
      have harith : i + (j' + 1) = (i + 1) + j' := by omega
      simp only [tughraEncryptGo, hko, List.get?_cons_succ, List.getD_cons_succ,
        harith]
      exact ih (i + 1) j' (by simpa using hj)

/-- When every cycle is pure (`processCycle` returns `.ok (f ·)`), the
cycle loop is iteration of `f`. -/
theorem processCycles_pure (cfg : Config) (mode : Str) (f : Str → Str)
    (h : ∀ t, processCycle cfg t mode = .ok (f t)) :
    ∀ (n : Nat) (t : Str),
      processCycles cfg mode t n = .ok (iterateCycles f n t) := by
  intro n
  induction n with
  | zero => intro t; rfl
  | succ n ih =>
    intro t
    unfold processCycles
    rw [h t]
    exact ih (f t)

/-- Iterating a transform commutes with one leading application. -/
theorem iterateCycles_comm (f : Str → Str) :
    ∀ (n : Nat) (t : Str), iterateCycles f n (f t) = f (iterateCycles f n t) := by
  intro n
  induction n with
  | zero => intro t; rfl
  | succ n ih => intro t; exact ih (f t)

/-- Two configs that agree on mode, base-encoding flag, base charset and the
cycle-forcing test, and whose cycles agree pointwise, run `process`
identically. -/
theorem process_congr (cfg1 cfg2 : Config)
    (hmode : cfg1.mode = cfg2.mode)
    (hub : cfg1.useBaseEncoding = cfg2.useBaseEncoding)
    (hbc : cfg1.baseCharset = cfg2.baseCharset)
    (hforce :
      (cfg1.algorithm == jstr "xor" || cfg1.algorithm == jstr "ROT47" ||
        cfg1.algorithm == jstr "ROT13") =
      (cfg2.algorithm == jstr "xor" || cfg2.algorithm == jstr "ROT47" ||
        cfg2.algorithm == jstr "ROT13"))
    (hcyc : ∀ t m, processCycle cfg1 t m = processCycle cfg2 t m) :
    ∀ (t : Str) (n : Nat), process cfg1 t n = process cfg2 t n := by
  have hcycles : ∀ m t n, processCycles cfg1 m t n = processCycles cfg2 m t n := by
    intro m t n
    induction n generalizing t with
    | zero => rfl
    | succ n ih =>
      unfold processCycles
      rw [hcyc t m]
      cases processCycle cfg2 t m with
      | error e => rfl
      | ok t' => exact ih t'
  intro t n
  have hfb : fromBase cfg1 = fromBase cfg2 := by
    funext s; unfold fromBase; rw [hbc]
  have htb : toBase cfg1 = toBase cfg2 := by
    funext s; unfold toBase; rw [hbc]
  simp only [process, hmode, hub, hforce, hfb, htb, hcycles]

/-- With base encoding off and a throw-free cycle, `process` is pure
iteration of the cycle transform. -/
theorem process_pure_nobase (cfg : Config) (f : Str → Str)
    (hub : cfg.useBaseEncoding = false)
    (hforce : (cfg.algorithm == jstr "xor" || cfg.algorithm == jstr "ROT47" ||
      cfg.algorithm == jstr "ROT13") = false)
    (h : ∀ s, processCycle cfg s cfg.mode = .ok (f s)) (t : Str) (n : Nat) :
    process cfg t n = .ok (iterateCycles f n t) := by
  unfold process
  simp [hub, hforce, processCycles_pure cfg cfg.mode f h]

/-- Every unit produced by iterated Tughra encryption stays below 2^16. -/
theorem iterate_tughra_units (key : Str) :
    ∀ (n : Nat) (t : Str), (∀ u ∈ t, u < 65536) →
      ∀ u ∈ iterateCycles (tughraEncryptGo key 0) n t, u < 65536 := by
  intro n
  induction n with
  | zero => intro t ht; exact ht
  | succ n ih =>
    intro t ht
    exact ih (tughraEncryptGo key 0 t)
      (fun u hu => tughraEncryptGo_units key t 0 u hu)

/-- Running `n` Tughra decrypt cycles undoes `n` Tughra encrypt cycles (nonempty key,
valid UTF-16 input). -/
theorem iterate_tughra_roundtrip (key : Str) (hk : key.isEmpty = false) :
    ∀ (n : Nat) (t : Str), (∀ u ∈ t, u < 65536) →
      iterateCycles (tughraDecryptGo key 0) n
        (iterateCycles (tughraEncryptGo key 0) n t) = t := by
  intro n
  induction n with
  | zero => intro t _; rfl
  | succ n ih =>
    intro t ht
    show iterateCycles (tughraDecryptGo key 0) n
      (tughraDecryptGo key 0
        (iterateCycles (tughraEncryptGo key 0) n (tughraEncryptGo key 0 t))) = t
    rw [iterateCycles_comm (tughraEncryptGo key 0) n t]
    rw [tughraGo_roundtrip key hk (iterateCycles (tughraEncryptGo key 0) n t) 0
      (iterate_tughra_units key n t ht)]
    exact ih t ht

/-- An encrypt-mode and a decrypt-mode default-variant engine with the same
(deduplicated) key invert each other over any number of cycles. -/
theorem default_engine_roundtrip (ko bc1 bc2 : Str) (ek1 ek2 : List Nat)
    (hk : ko.isEmpty = false) (t : Str) (n : Nat) (ht : ∀ u ∈ t, u < 65536) :
    (process ⟨ko, jstr "encrypt", false, bc1, ek1, jstr "default", 5, 8, 26⟩ t n).bind
      (fun enc =>
        process ⟨ko, jstr "decrypt", false, bc2, ek2, jstr "default", 5, 8, 26⟩ enc n) =
      .ok t := by
  rw [process_pure_nobase
    ⟨ko, jstr "encrypt", false, bc1, ek1, jstr "default", 5, 8, 26⟩
    (tughraEncryptGo ko 0) rfl rfl (fun s => rfl) t n]
  show process ⟨ko, jstr "decrypt", false, bc2, ek2, jstr "default", 5, 8, 26⟩
    (iterateCycles (tughraEncryptGo ko 0) n t) n = .ok t
  rw [process_pure_nobase
    ⟨ko, jstr "decrypt", false, bc2, ek2, jstr "default", 5, 8, 26⟩
    (tughraDecryptGo ko 0) rfl rfl (fun s => rfl) _ n]
  exact congrArg Except.ok (iterate_tughra_roundtrip ko hk n t ht)

/-! ## Claim theorems -/

/-- C1 (counterexample): the cycle law fails as stated. With the ROT47
variant, key `"password1"`, text `"a"` and one cycle, encryption succeeds
(`"a"` becomes `"2"`), but decrypting `"2"` with the identically configured
decrypt engine throws a `TypeError` (the code calls the nonexistent method
`this.encryptROT47`) instead of restoring `"a"`. -/
theorem c1_cycle_law_counterexample :
    (tughraNew (jstr "encrypt") [] (jstr "ROT47") (jstr "password1") false).bind
      (fun cfg => process cfg (jstr "a") 1) = .ok (jstr "2") ∧
    (tughraNew (jstr "decrypt") [] (jstr "ROT47") (jstr "password1") false).bind
      (fun cfg => process cfg (jstr "2") 1) =
      .error "TypeError: this.encryptROT47 is not a function" := by
  exact ⟨by decide, by decide⟩

/-- C1 (amended): the cycle law does hold for the default (Tughra) variant:
for every key with a nonempty deduplicated form, every UTF-16 text, every
base charset and every `n ≥ 1`, decrypting the result of `n` encryption
cycles with `n` decryption cycles under the identical configuration (base
encoding off) restores the original text. -/
theorem c1_cycle_law_default_variant (key cs t : Str) (n : Nat)
    (_hn : 1 ≤ n) (hk : (uniqueKeyOffsets key).isEmpty = false)
    (ht : ∀ u ∈ t, u < 65536) :
    ((tughraNew (jstr "encrypt") cs (jstr "default") key false).bind fun cE =>
      (tughraNew (jstr "decrypt") cs (jstr "default") key false).bind fun cD =>
        (process cE t n).bind fun enc => process cD enc n) = .ok t := by
  have hne : (jstr "default" != jstr "default") = false := rfl
  have hE : tughraNew (jstr "encrypt") cs (jstr "default") key false =
      .ok ⟨uniqueKeyOffsets key, jstr "encrypt", false,
        if cs.isEmpty then defaultCharset else cs, utf8Encode key,
        jstr "default", 5, 8, 26⟩ := by
    unfold tughraNew
    simp [hk, hne]
  have hD : tughraNew (jstr "decrypt") cs (jstr "default") key false =
      .ok ⟨uniqueKeyOffsets key, jstr "decrypt", false,
        if cs.isEmpty then defaultCharset else cs, utf8Encode key,
        jstr "default", 5, 8, 26⟩ := by
    unfold tughraNew
    simp [hk, hne]
    decide
  rw [hE, hD]
  exact default_engine_roundtrip (uniqueKeyOffsets key) _ _ _ _ hk t n ht

/-- Witness for `c1_cycle_law_default_variant` at key `"abc"`, text `"A"`,
two cycles. -/
theorem c1_cycle_law_default_variant_witness :
    (1 ≤ 2 ∧ (uniqueKeyOffsets (jstr "abc")).isEmpty = false ∧
      (∀ u ∈ jstr "A", u < 65536)) ∧
    ((tughraNew (jstr "encrypt") [] (jstr "default") (jstr "abc") false).bind fun cE =>
      (tughraNew (jstr "decrypt") [] (jstr "default") (jstr "abc") false).bind fun cD =>
        (process cE (jstr "A") 2).bind fun enc => process cD enc 2) = .ok (jstr "A") :=
  ⟨⟨by decide, by decide, by decide⟩,
    c1_cycle_law_default_variant (jstr "abc") [] (jstr "A") 2 (by decide)
      (by decide) (by decide)⟩

/-- C2: the BaseCodec sizes chunks with the natural logarithm
(`chunkSize = ceil(ln 16) = 3` for a 16-symbol alphabet), so the single
byte `0xAB` encodes to **three** symbols (`"526"`), not the two symbols the
base-2 sizing would give; decoding those three symbols does return
`0xAB`. -/
theorem c2_hex_byte_three_symbols :
    chunkSizeOf (jstr "0123456789abcdef").length = 3 ∧
    baseEncode (jstr "0123456789abcdef") [0xAB] = jstr "526" ∧
    (baseEncode (jstr "0123456789abcdef") [0xAB]).length ≠ 2 ∧
    baseDecode (jstr "0123456789abcdef") (jstr "526") = .ok [0xAB] := by
  exact ⟨by decide, by decide, by decide, by decide⟩

/-- C3 (counterexample): ROT47 is listed as an involutive variant, but
`v.decode(v.encode("a"))` does not return `"a"`: the decode method throws a
`TypeError` (it calls the nonexistent `this.encryptROT47`). -/
theorem c3_involution_counterexample :
    decryptROT47 (encryptROT47 (jstr "a")) =
      .error "TypeError: this.encryptROT47 is not a function" ∧
    decryptROT47 (encryptROT47 (jstr "a")) ≠ .ok (jstr "a") := by
  exact ⟨by decide, by decide⟩

/-- One substitution-then-reverse-substitution step returns the original
unit: the reverse table is built by swapping the forward table, whose keys
and values are the same 52 letters. -/
theorem subst_unit_roundtrip (c : Nat) :
    (reverseSubstitutionKeyLookup ((substitutionKeyLookup c).getD c)).getD
      ((substitutionKeyLookup c).getD c) = c := by
  by_cases h : c < 123
  · interval_cases c <;> decide
  · have h1 : substitutionKeyLookup c = none := by
      unfold substitutionKeyLookup
      rw [List.find?_eq_none.mpr]
      · rfl
      · intro p hp
        fin_cases hp <;> simp <;> omega
    have h2 : reverseSubstitutionKeyLookup c = none := by
      unfold reverseSubstitutionKeyLookup
      rw [List.find?_eq_none.mpr]
      · rfl
      · intro p hp
        fin_cases hp <;> simp <;> omega
    rw [h1]
    simp only [Option.getD_none]
    rw [h2]
    rfl

/-- The reverse substitution table undoes the forward one on whole texts. -/
theorem substitution_roundtrip (t : Str) :
    decryptSubstitution (encryptSubstitution t) = t := by
  unfold encryptSubstitution decryptSubstitution
  induction t with
  | nil => rfl
  | cons c rest ih =>
    simp only [List.map_cons, List.cons.injEq]
    exact ⟨subst_unit_roundtrip c, ih⟩

/-- C3 (amended): among the variants the claim lists, only ROT13 satisfies
both involution laws. ROT47 and Atbash have involutive `encode`s, but
their `decode`s throw a `TypeError` on every input (they call the missing
methods `encryptROT47`/`encryptAtbash`), so `decode(encode(t)) = t` fails.
Byte-XOR's `encode` is not an involution (its output is Base64-wrapped:
encoding `"A"` twice under key `"password"` does not give back `"A"`),
though for it `decode` is a distinct function. The substitution table is
not self-inverse (`encode(encode("a")) = "j"`), although its reverse-table
`decode` does undo `encode`. -/
theorem c3_involution_amended :
    (∀ t : Str,
      decryptROT13 (encryptROT13 t) = t ∧
      encryptROT13 (encryptROT13 t) = t ∧
      encryptROT47 (encryptROT47 t) = t ∧
      encryptAtbash (encryptAtbash t) = t ∧
      decryptROT47 t = .error "TypeError: this.encryptROT47 is not a function" ∧
      decryptAtbash t = .error "TypeError: this.encryptAtbash is not a function" ∧
      decryptSubstitution (encryptSubstitution t) = t) ∧
    (tughraNew (jstr "encrypt") [] (jstr "xor") (jstr "password") false).bind
      (fun cfg => (xorEncrypt cfg (jstr "A")).bind (xorEncrypt cfg)) ≠
      .ok (jstr "A") ∧
    encryptSubstitution (encryptSubstitution (jstr "a")) = jstr "j" := by
  refine ⟨fun t => ⟨?_, ?_, ?_, ?_, rfl, rfl, ?_⟩, by decide, by decide⟩
  · exact encryptROT13_invol t
  · exact encryptROT13_invol t
  · exact encryptROT47_invol t
  · exact encryptAtbash_invol t
  · exact substitution_roundtrip t

/-- C4 (counterexample): constructing the engine with the unknown variant
identifier `"nonexistent"` (and a strength-passing key) does not fail — and
`process` then transforms text exactly as the default Tughra variant would
(`"A"` becomes the unit `65 + 'p' = 177`). -/
theorem c4_unknown_variant_counterexample :
    (tughraNew (jstr "encrypt") [] (jstr "nonexistent") (jstr "password1")
      false).isOk = true ∧
    (tughraNew (jstr "encrypt") [] (jstr "nonexistent") (jstr "password1")
      false).bind (fun cfg => process cfg (jstr "A") 1) = .ok [177] ∧
    (tughraNew (jstr "encrypt") [] (jstr "nonexistent") (jstr "password1")
      false).bind (fun cfg => process cfg (jstr "A") 1) =
    (tughraNew (jstr "encrypt") [] (jstr "default") (jstr "password1")
      false).bind (fun cfg => process cfg (jstr "A") 1) := by
  exact ⟨by decide, by decide, by decide⟩

/-- C4 (amended): an unknown variant identifier is accepted by the
constructor (no validation, no `UnknownVariantError` exists anywhere in the
class), and the dispatch's `default` case makes `process` behave exactly
like the default Tughra variant: for every mode, charset, base-encoding
flag, text and cycle count, the `"nonexistent"` engine and the `"default"`
engine produce identical results (key `"password1"`). -/
theorem c4_unknown_variant_amended (mode cs : Str) (ub : Bool) (t : Str)
    (n : Nat) :
    (tughraNew mode cs (jstr "nonexistent") (jstr "password1") ub).bind
      (fun cfg => process cfg t n) =
    (tughraNew mode cs (jstr "default") (jstr "password1") ub).bind
      (fun cfg => process cfg t n) := by
  have h1 : tughraNew mode cs (jstr "nonexistent") (jstr "password1") ub =
      .ok ⟨uniqueKeyOffsets (jstr "password1"),
        if mode.isEmpty then jstr "encrypt" else mode, ub,
        if cs.isEmpty then defaultCharset else cs,
        utf8Encode (jstr "password1"), jstr "nonexistent", 5, 8, 26⟩ := rfl
  have h2 : tughraNew mode cs (jstr "default") (jstr "password1") ub =
      .ok ⟨uniqueKeyOffsets (jstr "password1"),
        if mode.isEmpty then jstr "encrypt" else mode, ub,
        if cs.isEmpty then defaultCharset else cs,
        utf8Encode (jstr "password1"), jstr "default", 5, 8, 26⟩ := rfl
  rw [h1, h2]
  exact process_congr
    ⟨uniqueKeyOffsets (jstr "password1"),
      if mode.isEmpty then jstr "encrypt" else mode, ub,
      if cs.isEmpty then defaultCharset else cs,
      utf8Encode (jstr "password1"), jstr "nonexistent", 5, 8, 26⟩
    ⟨uniqueKeyOffsets (jstr "password1"),
      if mode.isEmpty then jstr "encrypt" else mode, ub,
      if cs.isEmpty then defaultCharset else cs,
      utf8Encode (jstr "password1"), jstr "default", 5, 8, 26⟩
    rfl rfl rfl rfl (fun s m => rfl) t n

/-- C5 (counterexample): in decrypt mode with base encoding on (alphabet
`"01"`), the input symbol `'2'` is outside the alphabet; the inner decode
throws `'Invalid Base character'`, but `fromBase` swallows it and `process`
returns the input text `"2"` unchanged rather than raising. -/
theorem c5_invalid_symbol_counterexample :
    baseDecode (jstr "01") (jstr "2") = .error "Invalid Base character" ∧
    (tughraNew (jstr "decrypt") (jstr "01") (jstr "ROT13") (jstr "password")
      true).bind (fun cfg => process cfg (jstr "2") 1) = .ok (jstr "2") := by
  exact ⟨by decide, by decide⟩

/-- C5 (amended): whenever the configured alphabet rejects the input (the
BaseCodec decode errors), `fromBase` catches the error in its `try/catch`
and returns the input text unchanged, so `process` continues with the
undecoded text instead of raising. -/
theorem c5_invalid_symbol_amended (cfg : Config) (t : Str)
    (h : (baseDecode cfg.baseCharset t).isOk = false) :
    fromBase cfg t = t := by
  unfold fromBase
  by_cases ht : t.isEmpty = true
  · rw [if_pos ht]
  · rw [if_neg ht]
    cases hd : baseDecode cfg.baseCharset t with
    | error e => rfl
    | ok r => rw [hd] at h; simp [Except.isOk, Except.toBool] at h

/-- Witness for `c5_invalid_symbol_amended` with alphabet `"01"` and text
`"2"`. -/
theorem c5_invalid_symbol_amended_witness :
    (baseDecode base01Cfg.baseCharset (jstr "2")).isOk = false ∧
    fromBase base01Cfg (jstr "2") = jstr "2" :=
  ⟨by decide, c5_invalid_symbol_amended base01Cfg (jstr "2") (by decide)⟩

/-- One Affine-Pro step with the hardcoded keys (`a = 5`, `b = 8`,
`m = 26`, inverse 21) round-trips a single unit. -/
theorem affinePro_unit_roundtrip (c : Nat) :
    (fun c => if isAsciiLetter c then
        (21 * (c - letterBase c + 26 - 8)) % 26 + letterBase c else c)
      ((fun c => if isAsciiLetter c then
        (5 * (c - letterBase c) + 8) % 26 + letterBase c else c) c) = c := by
  unfold isAsciiLetter letterBase
  simp only [Bool.or_eq_true, Bool.and_eq_true, decide_eq_true_eq]
  split_ifs <;> simp_all <;> omega

/-- With the hardcoded `a = 5`, `b = 8`, `m = 26`, Affine-Pro decryption
(inverse 21) undoes Affine-Pro encryption on every text. -/
theorem affinePro_roundtrip (t : Str) :
    decryptAffinePro affineProCfg (encryptAffinePro affineProCfg t) =
      .ok t := by
  show Except.ok
    (List.map (fun c => if isAsciiLetter c then
        (21 * (c - letterBase c + 26 - 8)) % 26 + letterBase c else c)
      (List.map (fun c => if isAsciiLetter c then
        (5 * (c - letterBase c) + 8) % 26 + letterBase c else c) t)) =
    Except.ok t
  refine congrArg Except.ok ?_
  rw [List.map_map]
  induction t with
  | nil => rfl
  | cons c rest ih =>
    simp only [List.map_cons, Function.comp_apply, List.cons.injEq]
    exact ⟨affinePro_unit_roundtrip c, ih⟩

/-- C6 (counterexample): configuring an `'Affine Pro'` engine succeeds —
the constructor performs no coprimality check and offers no way to pass
`a = 4` in the first place (`a` is hardcoded to 5). In the `a = 4` state
the claim describes, even encryption still processes text without error
(`"B"` maps to `"M"`); the `NoInverseError`-style throw happens only inside
`_decryptAffinePro`, at decrypt-use time, not at configuration time. -/
theorem c6_affine_config_counterexample :
    (tughraNew (jstr "encrypt") [] (jstr "Affine Pro") (jstr "password1")
      false).isOk = true ∧
    modInverse 4 26 = none ∧
    encryptAffinePro affineProCfgA4 (jstr "B") = jstr "M" ∧
    decryptAffinePro affineProCfgA4 (jstr "B") =
      .error "No modular inverse exists for the given key 'a'" := by
  exact ⟨by decide, by decide, by decide, by decide⟩

/-- C6 (amended): the Affine keys are hardcoded (`a = 5`, `b = 8`,
`m = 26`) by every successful construction, and no inverse check happens at
configuration time. `_modInverse(4, 26)` is `null`, so in an `a = 4` state
decryption throws `"No modular inverse exists for the given key 'a'"` on
every input — at first decrypt use. With `a = 5` the computed inverse is 21
and Affine-Pro decryption inverts encryption on every text. -/
theorem c6_affine_config_amended :
    modInverse 4 26 = none ∧
    modInverse 5 26 = some 21 ∧
    (∀ t, decryptAffinePro affineProCfgA4 t =
      .error "No modular inverse exists for the given key 'a'") ∧
    (∀ mode cs alg key ub,
      (tughraNew mode cs alg key ub).map (fun c => (c.a, c.b, c.m)) =
      (tughraNew mode cs alg key ub).map (fun _ => (5, 8, 26))) ∧
    (∀ t, decryptAffinePro affineProCfg (encryptAffinePro affineProCfg t) =
      .ok t) := by
  refine ⟨by decide, by decide, fun t => rfl, ?_, ?_⟩
  · intro mode cs alg key ub
    unfold tughraNew
    by_cases h1 : (alg == jstr "default" && (uniqueKeyOffsets key).isEmpty) = true
    · rw [if_pos h1]; rfl
    · rw [if_neg h1]
      by_cases h2 : (alg != jstr "default" && decide (key.length < 8)) = true
      · rw [if_pos h2]; rfl
      · rw [if_neg h2]; rfl
  · exact affinePro_roundtrip

/-- C7: for the variant identifiers `'xor'`, `'ROT47'` and `'ROT13'`,
`process` forces the cycle count to 1: for every configured engine with one
of those algorithms, every text and every `n ≥ 1` (in either mode),
`process(t, n) = process(t, 1)`. -/
theorem c7_cycle_insensitive (cfg : Config) (t : Str) (n : Nat)
    (_hn : 1 ≤ n)
    (halg : cfg.algorithm = jstr "xor" ∨ cfg.algorithm = jstr "ROT47" ∨
      cfg.algorithm = jstr "ROT13") :
    process cfg t n = process cfg t 1 := by
  obtain ⟨ko, mo, ubb, bc, ek, al, a, b, m⟩ := cfg
  rcases halg with h | h | h <;> (subst h; rfl)

/-- Witness for `c7_cycle_insensitive` at the ROT13 config, text `"Hi"`,
three cycles. -/
theorem c7_cycle_insensitive_witness :
    (1 ≤ 3 ∧ (rot13Cfg.algorithm = jstr "xor" ∨
      rot13Cfg.algorithm = jstr "ROT47" ∨
      rot13Cfg.algorithm = jstr "ROT13")) ∧
    process rot13Cfg (jstr "Hi") 3 = process rot13Cfg (jstr "Hi") 1 :=
  ⟨⟨by decide, by decide⟩,
    c7_cycle_insensitive rot13Cfg (jstr "Hi") 3 (by decide) (by decide)⟩

/-- C8: with the default (Tughra) variant, key `"abc"`, text `"A"` and one
cycle, encryption returns the single unit `65 + 97 = 162` (the code of
`'A'` shifted by the code of `'a'`), and decrypting that output with the
same key and cycle count restores `"A"`. -/
theorem c8_default_abc_scenario :
    (tughraNew (jstr "encrypt") [] (jstr "default") (jstr "abc") false).bind
      (fun cfg => process cfg (jstr "A") 1) = .ok [162] ∧
    162 = 65 + 97 ∧
    (tughraNew (jstr "decrypt") [] (jstr "default") (jstr "abc") false).bind
      (fun cfg => process cfg [162] 1) = .ok (jstr "A") := by
  exact ⟨by decide, by decide, by decide⟩

/-- C9: for the default variant, the effective key is the duplicate-free
form of the input key, so any two keys with the same deduplicated form
(e.g. `"aab"` and `"ab"`) give identical `process` results for every mode,
charset, base-encoding flag, text and cycle count. -/
theorem c9_key_dedup_equiv (k1 k2 mode cs : Str) (ub : Bool) (t : Str)
    (n : Nat) (hkey : uniqueKeyOffsets k1 = uniqueKeyOffsets k2) :
    (tughraNew mode cs (jstr "default") k1 ub).bind
      (fun cfg => process cfg t n) =
    (tughraNew mode cs (jstr "default") k2 ub).bind
      (fun cfg => process cfg t n) := by
  have hbeq : (jstr "default" == jstr "default") = true := rfl
  have hbne : (jstr "default" != jstr "default") = false := rfl
  unfold tughraNew
  rw [hkey]
  by_cases hemp : (uniqueKeyOffsets k2).isEmpty = true
  · simp [hbeq, hemp]
  · simp only [hbeq, Bool.true_and, hbne, Bool.false_and, Bool.false_eq_true,
      if_false]
    rw [if_neg hemp, if_neg hemp]
    exact process_congr
      ⟨uniqueKeyOffsets k2, if mode.isEmpty then jstr "encrypt" else mode, ub,
        if cs.isEmpty then defaultCharset else cs, utf8Encode k1,
        if (jstr "default").isEmpty then jstr "default" else jstr "default",
        5, 8, 26⟩
      ⟨uniqueKeyOffsets k2, if mode.isEmpty then jstr "encrypt" else mode, ub,
        if cs.isEmpty then defaultCharset else cs, utf8Encode k2,
        if (jstr "default").isEmpty then jstr "default" else jstr "default",
        5, 8, 26⟩
      rfl rfl rfl rfl (fun s m => rfl) t n

/-- Witness for `c9_key_dedup_equiv` at keys `"aab"`/`"ab"`, text `"Xy"`,
two cycles. -/
theorem c9_key_dedup_equiv_witness :
    uniqueKeyOffsets (jstr "aab") = uniqueKeyOffsets (jstr "ab") ∧
    (tughraNew (jstr "encrypt") [] (jstr "default") (jstr "aab") false).bind
      (fun cfg => process cfg (jstr "Xy") 2) =
    (tughraNew (jstr "encrypt") [] (jstr "default") (jstr "ab") false).bind
      (fun cfg => process cfg (jstr "Xy") 2) :=
  ⟨by decide,
    c9_key_dedup_equiv (jstr "aab") (jstr "ab") (jstr "encrypt") [] false
      (jstr "Xy") 2 (by decide)⟩

/-- C10: the default variant's arithmetic is modulo 2^16 on UTF-16 code
units. For any engine state with a nonempty `keyOffsets` and any text of
valid UTF-16 units, each ciphertext unit is
`(c + offset) mod 65536` (so overshooting `0xFFFF` wraps instead of
escaping the code-unit range), and decryption inverts encryption on the
whole text. -/
theorem c10_default_mod_2pow16 (cfg : Config) (t : Str)
    (hk : cfg.keyOffsets.isEmpty = false) (ht : ∀ u ∈ t, u < 65536) :
    tughraDecrypt cfg (tughraEncrypt cfg t) = t ∧
    ∀ j, j < t.length →
      (tughraEncrypt cfg t).get? j =
        some ((t.getD j 0 +
          cfg.keyOffsets.getD (j % cfg.keyOffsets.length) 0) % 65536) := by
  constructor
  · exact tughraGo_roundtrip cfg.keyOffsets hk t 0 ht
  · intro j hj
    have := tughraEncryptGo_get? cfg.keyOffsets hk t 0 j hj
    simpa using this

/-- Witness for `c10_default_mod_2pow16`: key `"k"` (code 107) and the
maximal unit `0xFFFF`, whose encryption wraps to `(65535 + 107) mod 65536 =
106` and decrypts back to `0xFFFF`. -/
theorem c10_default_mod_2pow16_witness :
    (tughraKCfg.keyOffsets.isEmpty = false ∧ (∀ u ∈ [65535], u < 65536)) ∧
    (tughraDecrypt tughraKCfg (tughraEncrypt tughraKCfg [65535]) = [65535] ∧
      ∀ j, j < ([65535] : Str).length →
        (tughraEncrypt tughraKCfg [65535]).get? j =
          some ((([65535] : Str).getD j 0 +
            tughraKCfg.keyOffsets.getD
              (j % tughraKCfg.keyOffsets.length) 0) % 65536)) :=
  ⟨⟨by decide, by decide⟩,
    c10_default_mod_2pow16 tughraKCfg [65535] (by decide) (by decide)⟩

end TughraJS
